import Mathlib

/-!
Shallow embedding of `src/preseed_install.py` from the d-i-preseed-qemu
repository, together with proofs about the partition-table parser, the
boot-partition extractor, the filesystem introspector and the ISO file
extractor.

Modeling conventions:

* Python strings are Lean `String`s (lists of characters); subprocess byte
  output is `List Nat`.
* `os.path` state is a filesystem abstraction `FS := String → Option (List Nat)`
  mapping a path to the contents of the file stored there (`none` = the path
  does not exist).  `os.path.exists p` is `(fs p).isSome`.
* Each effectful operation returns a `Run α`: the Python return value or the
  raised exception (`Except PyError α`), the filesystem after the call, and
  the list of external tool invocations it performed, in order.  Python
  exceptions are `PyError` (`ValueError` / `subprocess.CalledProcessError`).
* External tools invoked with `check=True` that the claims never need to fail
  (qemu-img, fdisk) are modeled through parameters carrying the effect of a
  successful invocation (the produced bytes, or the captured stdout text).
  The debugfs tool is modeled by a behaviour parameter
  `String → FS → Int × String × String × FS` giving, for a command sent on
  stdin and the current filesystem, the exit status, captured stdout,
  captured stderr and the filesystem after the invocation.
* The regular expressions of the source are translated by hand.  Each
  pattern in the source is a sequence of literals, `\s+`, `[0-9]+`, `.+` and
  `\*{0,1}` items; for all of them except the leading `.+` of the data-row
  pattern, greedy matching coincides with maximal munch (a quantified class
  is always followed by a literal whose first character the class rejects,
  so backtracking into the class cannot succeed).  The leading greedy `.+`
  of the data-row pattern is modeled by trying the longest Type prefix
  first (`bestSplitGo`), exactly the order in which a backtracking engine
  explores it.  The `\s` class is modeled over the ASCII whitespace
  characters (the tool output the program parses is ASCII).
* `str.splitlines` / the `re.MULTILINE` anchors are modeled by splitting on
  the newline character, which is the only line separator fdisk and debugfs
  emit.
-/

namespace PreseedInstall

/-- Whitespace characters of the regex class `\s` and of `str.strip`
(ASCII range: space, tab, newline, carriage return, vertical tab, form feed). -/
def pyIsSpace (c : Char) : Bool :=
  c = ' ' || c = '\t' || c = '\n' || c = '\r' || c = Char.ofNat 11 || c = Char.ofNat 12

/-- Python `str.splitlines` restricted to the newline separator:
no trailing empty line for a trailing newline, `[]` for the empty string. -/
def splitLinesChars : List Char → List (List Char)
  | [] => []
  | c :: cs =>
    if c = '\n' then [] :: splitLinesChars cs
    else
      match splitLinesChars cs with
      | [] => [[c]]
      | l :: ls => (c :: l) :: ls

/-- Python `int` on a string of decimal digits. -/
def digitsToNat (cs : List Char) : Nat :=
  cs.foldl (fun n c => 10 * n + (c.toNat - 48)) 0

/-- Python `str.strip` on a character list: drop whitespace from both ends. -/
def pyStripChars (cs : List Char) : List Char :=
  ((cs.dropWhile pyIsSpace).reverse.dropWhile pyIsSpace).reverse

/-- Python `str.strip`, the post-processor of the Type column. -/
def pyStrip (s : String) : String :=
  String.mk (pyStripChars s.toList)

/-- Match a literal at the start of the input, returning the rest. -/
def stripLit : List Char → List Char → Option (List Char)
  | [], cs => some cs
  | _, [] => none
  | l :: ls, c :: cs => if c = l then stripLit ls cs else none

/-- Match `\s+` at the start of the input (maximal munch), returning the rest. -/
def wsPlus (cs : List Char) : Option (List Char) :=
  let a := cs.takeWhile pyIsSpace
  if a.isEmpty then none else some (cs.dropWhile pyIsSpace)

/-- Match `[0-9]+` at the start of the input, returning the digits and the rest. -/
def digitsPlus (cs : List Char) : Option (List Char × List Char) :=
  let d := cs.takeWhile Char.isDigit
  if d.isEmpty then none else some (d, cs.dropWhile Char.isDigit)

/-- Python errors raised by the module: `ValueError(msg)` and
`subprocess.CalledProcessError(returncode, cmd, output, stderr)`
(text-mode variant, and a bytes variant for `capture_output` without text). -/
inductive PyError where
  | valueError (msg : String)
  | calledProcessError (returncode : Int) (cmd : List String) (output stderr : String)
  | calledProcessErrorBytes (returncode : Int) (cmd : List String) (output stderr : List Nat)
deriving DecidableEq

/-- The `Partition` named tuple of the source. -/
structure Partition where
  type : String
  sector_size : Nat
  start_sector : Nat
  size_in_sectors : Nat
  bootable : Bool
deriving DecidableEq

/-- The filesystem visible to `os.path` and the external tools:
a path either holds file bytes or does not exist. -/
abbrev FS := String → Option (List Nat)

/-- Point update of the filesystem: the effect of a tool creating a file. -/
def fsSet (fs : FS) (path : String) (content : List Nat) : FS :=
  fun q => if q = path then some content else fs q

/-- One external tool invocation (the subprocess calls the module makes). -/
inductive ToolCall where
  | qemuCreate (filename size : String)
  | qemuConvert (input output : String)
  | fdisk (image : String)
  | dd (input output : String) (bs skip count : Nat)
  | debugfs (partition command : String)
  | isoinfo (iso path : String)
deriving DecidableEq

/-- Outcome of one Python call: return value or raised error, the filesystem
after the call, and the external tool invocations performed, in order. -/
structure Run (α : Type) where
  result : Except PyError α
  fs : FS
  calls : List ToolCall

/-! ## fdisk output parsing (`parse_fdisk_sector_size`, `parse_fdisk_units`,
`list_partitions`) -/

/-- The pattern
`^Sector size \(logical/physical\): ([0-9]+) bytes / ([0-9]+) bytes`
applied at the start of one line (no end anchor): returns the two digit
groups. -/
def matchSectorSizeLine (cs : List Char) : Option (List Char × List Char) := do
  let r1 ← stripLit "Sector size (logical/physical): ".toList cs
  let (d1, r2) ← digitsPlus r1
  let r3 ← stripLit " bytes / ".toList r2
  let (d2, r4) ← digitsPlus r3
  let _ ← stripLit " bytes".toList r4
  some (d1, d2)

/-- The first line of the output matched by the sector-size pattern
(re.search with re.MULTILINE scans the line starts in order). -/
def firstSectorSizeMatch (fdisk_output : String) : Option (List Char × List Char) :=
  (splitLinesChars fdisk_output.toList).findSome? matchSectorSizeLine

/-- `parse_fdisk_sector_size`: parse the sector size in bytes from fdisk
output; the two captured groups are compared as strings. -/
def parse_fdisk_sector_size (fdisk_output : String) : Except PyError Nat :=
  match firstSectorSizeMatch fdisk_output with
  | none => .error (.valueError "can't parse partition table sector size")
  | some (d1, d2) =>
    if d1 ≠ d2 then
      .error (.valueError ("partition table logical and physical sector sizes differ: "
        ++ String.mk d1 ++ " != " ++ String.mk d2))
    else
      .ok (digitsToNat d1)

/-- The pattern `^Units: sectors of [0-9]+ \* [0-9]+ = ([0-9]+) bytes$`
applied to one full line: returns the captured group. -/
def matchUnitsLine (cs : List Char) : Option (List Char) := do
  let r1 ← stripLit "Units: sectors of ".toList cs
  let (_, r2) ← digitsPlus r1
  let r3 ← stripLit " * ".toList r2
  let (_, r4) ← digitsPlus r3
  let r5 ← stripLit " = ".toList r4
  let (d3, r6) ← digitsPlus r5
  let r7 ← stripLit " bytes".toList r6
  if r7.isEmpty then some d3 else none

/-- `parse_fdisk_units`: parse the unit size in bytes from fdisk output. -/
def parse_fdisk_units (fdisk_output : String) : Except PyError Nat :=
  match (splitLinesChars fdisk_output.toList).findSome? matchUnitsLine with
  | none => .error (.valueError "can't parse partition table units")
  | some d3 => .ok (digitsToNat d3)

/-- Full-line match of the header pattern `Type\s+Start\s+Sectors\s+Boot`. -/
def matchHeaderLine (cs : List Char) : Bool :=
  (do
    let r1 ← stripLit "Type".toList cs
    let r2 ← wsPlus r1
    let r3 ← stripLit "Start".toList r2
    let r4 ← wsPlus r3
    let r5 ← stripLit "Sectors".toList r4
    let r6 ← wsPlus r5
    let r7 ← stripLit "Boot".toList r6
    if r7.isEmpty then some () else none).isSome

/-- The tail `\s+([0-9]+)\s+([0-9]+)\s+` of the data-row pattern after the
Type group and before the (already stripped) Boot group: maximal munch is
exact here, because shortening any quantified run would put a rejected
character at the start of the next item.  Returns the Start and Sectors
groups. -/
def matchTail (cs : List Char) : Option (List Char × List Char) :=
  let a := cs.takeWhile pyIsSpace
  let r1 := cs.dropWhile pyIsSpace
  let s1 := r1.takeWhile Char.isDigit
  let r2 := r1.dropWhile Char.isDigit
  let b := r2.takeWhile pyIsSpace
  let r3 := r2.dropWhile pyIsSpace
  let s2 := r3.takeWhile Char.isDigit
  let r4 := r3.dropWhile Char.isDigit
  if !a.isEmpty && !s1.isEmpty && !b.isEmpty && !s2.isEmpty
      && !r4.isEmpty && r4.all pyIsSpace then
    some (s1, s2)
  else none

/-- Backtracking search for the greedy `(.+)` Type group: try the longest
prefix first, exactly as the regex engine does.  The prefix must not contain
a newline (`.` does not match it) and the remainder must match the tail. -/
def bestSplitGo (core : List Char) : Nat → Option (List Char × List Char × List Char)
  | 0 => none
  | i + 1 =>
    match if (core.take (i + 1)).all (fun c => c ≠ '\n') then
        matchTail (core.drop (i + 1)) else none with
    | some (s1, s2) => some (core.take (i + 1), s1, s2)
    | none => bestSplitGo core i

/-- Full-line match of the data-row pattern
`(?P<Type>.+)\s+(?P<Start>[0-9]+)\s+(?P<Sectors>[0-9]+)\s+(?P<Boot>\*{0,1})`,
returning the raw Type, Start, Sectors and Boot groups.  The Boot group is
the last item of the pattern and neither `\s+` nor `[0-9]+` can consume a
star, so the Boot group is `*` exactly when the line ends in `*`; the
remaining groups are produced by the longest-Type-first search. -/
def matchDataRow (line : List Char) : Option (List Char × List Char × List Char × String) :=
  if line.getLast? = some '*' then
    (bestSplitGo line.dropLast line.dropLast.length).map (fun r => (r.1, r.2.1, r.2.2, "*"))
  else
    (bestSplitGo line line.length).map (fun r => (r.1, r.2.1, r.2.2, ""))

/-- Python `bool` on the Boot group string: nonempty means bootable. -/
def pyBool (s : String) : Bool := s ≠ ""

/-- One data row of the table turned into a `Partition`
(the loop body of `list_partitions` for a line after the header). -/
def parse_data_row (sector_size : Nat) (line : List Char) : Except PyError Partition :=
  match matchDataRow line with
  | none => .error (.valueError ("unable to parse partition line: " ++ String.mk line))
  | some (t, s1, s2, boot) =>
    .ok { type := pyStrip (String.mk t)
          sector_size := sector_size
          start_sector := digitsToNat s1
          size_in_sectors := digitsToNat s2
          bootable := pyBool boot }

/-- The line loop of `list_partitions`: a header line switches `in_list` on
and is skipped (also when already on); lines before the header are ignored;
every line after the header must be a data row. -/
def parseRows (sector_size : Nat) : List (List Char) → Bool → Except PyError (List Partition)
  | [], _ => .ok []
  | line :: rest, in_list =>
    if matchHeaderLine line then parseRows sector_size rest true
    else if in_list then
      match parse_data_row sector_size line with
      | .error e => .error e
      | .ok p =>
        match parseRows sector_size rest in_list with
        | .error e => .error e
        | .ok ps => .ok (p :: ps)
    else parseRows sector_size rest in_list

/-- `list_partitions`: check the image exists, run fdisk, parse the declared
sector and unit sizes, require them equal, then parse the table rows.
`fdisk_stdout` is the captured stdout of the (successful) fdisk invocation
on the image.  The source is a generator consumed strictly here: the full
row list is parsed. -/
def list_partitions (fdisk_stdout : String) (fs : FS) (image_filename : String) :
    Run (List Partition) :=
  if (fs image_filename).isNone then
    ⟨.error (.valueError ("file not found: " ++ image_filename)), fs, []⟩
  else
    let r : Except PyError (List Partition) :=
      match parse_fdisk_sector_size fdisk_stdout with
      | .error e => .error e
      | .ok sector_size =>
        match parse_fdisk_units fdisk_stdout with
        | .error e => .error e
        | .ok units =>
          if sector_size ≠ units then
            .error (.valueError ("partition table sector size and unit size differ: "
              ++ toString sector_size ++ " != " ++ toString units))
          else
            parseRows sector_size (splitLinesChars fdisk_stdout.toList) false
    ⟨r, fs, [ToolCall.fdisk image_filename]⟩

/-! ## Image creation, conversion and boot partition extraction -/

/-- `create_image`: refuse to overwrite, then let qemu-img create the file.
`created` is the content the (successful) tool invocation writes. -/
def create_image (created : List Nat) (fs : FS) (filename size : String) : Run Unit :=
  if (fs filename).isSome then
    ⟨.error (.valueError ("already exists: " ++ filename)), fs, []⟩
  else
    ⟨.ok (), fsSet fs filename created, [ToolCall.qemuCreate filename size]⟩

/-- `image_to_raw`: require the input, refuse to overwrite, then let
qemu-img convert.  `convert` is the raw image the tool produces from the
input bytes. -/
def image_to_raw (convert : List Nat → List Nat) (fs : FS)
    (input_filename output_filename : String) : Run Unit :=
  if (fs input_filename).isNone then
    ⟨.error (.valueError ("file not found: " ++ input_filename)), fs, []⟩
  else if (fs output_filename).isSome then
    ⟨.error (.valueError ("already exists: " ++ output_filename)), fs, []⟩
  else
    ⟨.ok (), fsSet fs output_filename (convert ((fs input_filename).getD [])),
      [ToolCall.qemuConvert input_filename output_filename]⟩

/-- The selection predicate of `extract_boot_partition`. -/
def isBootableLinux (p : Partition) : Bool :=
  p.type == "Linux" && p.bootable

/-- `extract_boot_partition`: require the image, refuse to overwrite, list
the partitions, take the first bootable Linux one in table order, and let
dd copy `size_in_sectors` blocks of `sector_size` bytes starting at block
`start_sector` out of the image into the destination. -/
def extract_boot_partition (fdisk_stdout : String) (fs : FS)
    (image_filename output_filename : String) : Run Unit :=
  match fs image_filename with
  | none => ⟨.error (.valueError ("file not found: " ++ image_filename)), fs, []⟩
  | some imageBytes =>
    if (fs output_filename).isSome then
      ⟨.error (.valueError ("already exists: " ++ output_filename)), fs, []⟩
    else
      match (list_partitions fdisk_stdout fs image_filename).result with
      | .error e => ⟨.error e, fs, [ToolCall.fdisk image_filename]⟩
      | .ok ps =>
        match ps.find? isBootableLinux with
        | some p =>
          ⟨.ok (),
            fsSet fs output_filename
              ((imageBytes.drop (p.start_sector * p.sector_size)).take
                (p.size_in_sectors * p.sector_size)),
            [ToolCall.fdisk image_filename,
             ToolCall.dd image_filename output_filename
               p.sector_size p.start_sector p.size_in_sectors]⟩
        | none => ⟨.error (.valueError "no bootable Linux partition found"), fs,
            [ToolCall.fdisk image_filename]⟩

/-! ## debugfs introspection -/

/-- The argv of the debugfs invocation. -/
def debugfsCmd (partition_filename : String) : List String :=
  ["/sbin/debugfs", "-w", "-f", "-", partition_filename]

/-- Behaviour of the external debugfs tool: for a command string and the
current filesystem, the exit status, captured stdout, captured stderr and
the filesystem after the invocation. -/
abbrev DebugfsBehaviour := String → FS → Int × String × String × FS

/-- `debugfs_command`: require the partition image, run debugfs with the
command on stdin, raise `CalledProcessError` on a non-zero exit status
(stderr is captured but not examined), return the captured stdout. -/
def debugfs_command (beh : DebugfsBehaviour) (fs : FS)
    (partition_filename command : String) : Run String :=
  if (fs partition_filename).isNone then
    ⟨.error (.valueError ("file not found: " ++ partition_filename)), fs, []⟩
  else
    let (rc, out, err, fs') := beh command fs
    if rc ≠ 0 then
      ⟨.error (.calledProcessError rc (debugfsCmd partition_filename) out err), fs',
        [ToolCall.debugfs partition_filename command]⟩
    else
      ⟨.ok out, fs', [ToolCall.debugfs partition_filename command]⟩

/-! ## symlink target parsing -/

/-- Full-line match of `^Fast link dest: (".+")$`: the group starts at a
double quote, runs greedily to the end of the line, and the line's last
character must close the quote with at least one character in between. -/
def matchFastLinkLine (cs : List Char) : Option (List Char) := do
  let r1 ← stripLit "Fast link dest: ".toList cs
  match r1 with
  | '"' :: rest =>
    if 2 ≤ rest.length ∧ rest.getLast? = some '"' ∧ rest.dropLast.all (fun c => c ≠ '\n') then
      some ('"' :: rest)
    else none
  | _ => none

/-- States of the shlex field splitter. -/
inductive ShSt where
  | plain
  | escaped
  | single
  | double
  | escapedQ

/-- Whitespace of `shlex` (space, tab, carriage return, newline). -/
def shWs (c : Char) : Bool :=
  c = ' ' || c = '\t' || c = '\r' || c = '\n'

/-- Emit the pending token, if a token was started. -/
def shFlush : Option (List Char) → List String
  | some t => [String.mk t]
  | none => []

/-- The state machine of `shlex.split` in POSIX mode with whitespace
splitting: single quotes are literal, double quotes let a backslash escape
only the backslash and the double quote, a backslash outside quotes escapes
any character, an open quote or trailing escape at the end of input raises
`ValueError`. -/
def pyShlexSplitAux : List Char → ShSt → Option (List Char) → List String →
    Except String (List String)
  | [], .plain, acc, toks => .ok (toks ++ shFlush acc)
  | [], .escaped, _, _ => .error "No escaped character"
  | [], .escapedQ, _, _ => .error "No escaped character"
  | [], .single, _, _ => .error "No closing quotation"
  | [], .double, _, _ => .error "No closing quotation"
  | c :: cs, .plain, acc, toks =>
    if shWs c then pyShlexSplitAux cs .plain none (toks ++ shFlush acc)
    else if c = '\'' then pyShlexSplitAux cs .single (some (acc.getD [])) toks
    else if c = '"' then pyShlexSplitAux cs .double (some (acc.getD [])) toks
    else if c = '\\' then pyShlexSplitAux cs .escaped (some (acc.getD [])) toks
    else pyShlexSplitAux cs .plain (some (acc.getD [] ++ [c])) toks
  | c :: cs, .escaped, acc, toks =>
    pyShlexSplitAux cs .plain (some (acc.getD [] ++ [c])) toks
  | c :: cs, .single, acc, toks =>
    if c = '\'' then pyShlexSplitAux cs .plain acc toks
    else pyShlexSplitAux cs .single (some (acc.getD [] ++ [c])) toks
  | c :: cs, .double, acc, toks =>
    if c = '"' then pyShlexSplitAux cs .plain acc toks
    else if c = '\\' then pyShlexSplitAux cs .escapedQ acc toks
    else pyShlexSplitAux cs .double (some (acc.getD [] ++ [c])) toks
  | c :: cs, .escapedQ, acc, toks =>
    if c = '"' || c = '\\' then pyShlexSplitAux cs .double (some (acc.getD [] ++ [c])) toks
    else pyShlexSplitAux cs .double (some (acc.getD [] ++ ['\\', c])) toks

/-- `shlex.split`. -/
def pyShlexSplit (s : String) : Except String (List String) :=
  pyShlexSplitAux s.toList .plain none []

/-- `parse_symlink_target`: find the first `Fast link dest:` line, shlex-split
the quoted group, and require exactly one token. -/
def parse_symlink_target (debugfs_output : String) : Except PyError String :=
  match (splitLinesChars debugfs_output.toList).findSome? matchFastLinkLine with
  | none => .error (.valueError "can't parse symlink target")
  | some g =>
    match pyShlexSplit (String.mk g) with
    | .error msg => .error (.valueError msg)
    | .ok [t] => .ok t
    | .ok _ => .error (.valueError "can't parse symlink target")

/-! ## boot file extraction from a partition image -/

/-- `extract_partition_boot_files`: require the partition image, refuse to
overwrite either destination (both are checked up front), resolve the
`/vmlinuz` and `/initrd.img` symlinks through debugfs, then dump each
target to its destination. -/
def extract_partition_boot_files (beh : DebugfsBehaviour) (fs : FS)
    (partition_filename output_kernel_filename output_initrd_filename : String) : Run Unit :=
  if (fs partition_filename).isNone then
    ⟨.error (.valueError ("file not found: " ++ partition_filename)), fs, []⟩
  else if (fs output_kernel_filename).isSome then
    ⟨.error (.valueError ("already exists: " ++ output_kernel_filename)), fs, []⟩
  else if (fs output_initrd_filename).isSome then
    ⟨.error (.valueError ("already exists: " ++ output_initrd_filename)), fs, []⟩
  else
    let r1 := debugfs_command beh fs partition_filename "stat /vmlinuz"
    match r1.result with
    | .error e => ⟨.error e, r1.fs, r1.calls⟩
    | .ok out1 =>
      match parse_symlink_target out1 with
      | .error e => ⟨.error e, r1.fs, r1.calls⟩
      | .ok kernel =>
        let r2 := debugfs_command beh r1.fs partition_filename "stat /initrd.img"
        match r2.result with
        | .error e => ⟨.error e, r2.fs, r1.calls ++ r2.calls⟩
        | .ok out2 =>
          match parse_symlink_target out2 with
          | .error e => ⟨.error e, r2.fs, r1.calls ++ r2.calls⟩
          | .ok initrd =>
            let r3 := debugfs_command beh r2.fs partition_filename
              ("dump " ++ kernel ++ " " ++ output_kernel_filename)
            match r3.result with
            | .error e => ⟨.error e, r3.fs, r1.calls ++ r2.calls ++ r3.calls⟩
            | .ok _ =>
              let r4 := debugfs_command beh r3.fs partition_filename
                ("dump " ++ initrd ++ " " ++ output_initrd_filename)
              match r4.result with
              | .error e => ⟨.error e, r4.fs, r1.calls ++ r2.calls ++ r3.calls ++ r4.calls⟩
              | .ok _ => ⟨.ok (), r4.fs, r1.calls ++ r2.calls ++ r3.calls ++ r4.calls⟩

/-! ## ISO file extraction -/

/-- The argv of the isoinfo invocation. -/
def isoinfoCmd (extract_filename iso_filename : String) : List String :=
  ["isoinfo", "-R", "-x", extract_filename, "-i", iso_filename]

/-- `iso_extract_file`: run isoinfo with `check=True` (a non-zero exit
status raises `CalledProcessError`), then treat empty captured stdout as
failure to extract.  `returncode`, `stdout` and `stderr` are the outcome of
the tool invocation. -/
def iso_extract_file (returncode : Int) (stdout stderr : List Nat)
    (iso_filename extract_filename : String) : Except PyError (List Nat) :=
  if returncode ≠ 0 then
    .error (.calledProcessErrorBytes returncode
      (isoinfoCmd extract_filename iso_filename) stdout stderr)
  else if stdout = [] then
    .error (.valueError ("failed to extract file: " ++ extract_filename
      ++ " from ISO: " ++ iso_filename))
  else
    .ok stdout

/-! ## Generic helper lemmas -/

theorem toList_mk (l : List Char) : (String.mk l).toList = l := rfl

theorem head_mem_append {α} {x y : List α} (hx : x ≠ []) :
    ∀ h t, x ++ y = h :: t → h ∈ x := by
  cases x with
  | nil => exact absurd rfl hx
  | cons a l =>
    intro h t heq
    rw [List.cons_append] at heq
    cases heq
    exact List.mem_cons_self a l

theorem stop_of_append {α} (p : α → Bool) {x y : List α} (hx : x ≠ [])
    (hall : ∀ c ∈ x, p c = false) : ∀ h t, x ++ y = h :: t → p h = false :=
  fun h t heq => hall h (head_mem_append hx h t heq)

theorem takeWhile_append_stop {α} (p : α → Bool) (x y : List α)
    (hx : ∀ c ∈ x, p c = true) (hy : ∀ h t, y = h :: t → p h = false) :
    (x ++ y).takeWhile p = x := by
  induction x with
  | nil =>
    cases y with
    | nil => rfl
    | cons h t => simp [List.takeWhile_cons, hy h t rfl]
  | cons a l ih =>
    have ha := hx a (List.mem_cons_self a l)
    simp only [List.cons_append, List.takeWhile_cons, ha, if_true]
    rw [ih (fun c hc => hx c (List.mem_cons_of_mem a hc))]

theorem dropWhile_append_stop {α} (p : α → Bool) (x y : List α)
    (hx : ∀ c ∈ x, p c = true) (hy : ∀ h t, y = h :: t → p h = false) :
    (x ++ y).dropWhile p = y := by
  induction x with
  | nil =>
    cases y with
    | nil => rfl
    | cons h t => simp [List.dropWhile_cons, hy h t rfl]
  | cons a l ih =>
    have ha := hx a (List.mem_cons_self a l)
    simp only [List.cons_append, List.dropWhile_cons, ha, if_true]
    exact ih (fun c hc => hx c (List.mem_cons_of_mem a hc))

theorem takeWhile_all_eq {α} (p : α → Bool) (x : List α) (hx : ∀ c ∈ x, p c = true) :
    x.takeWhile p = x := by
  have := takeWhile_append_stop p x [] hx (by intro h t ht; cases ht)
  simpa using this

theorem dropWhile_all_eq {α} (p : α → Bool) (x : List α) (hx : ∀ c ∈ x, p c = true) :
    x.dropWhile p = [] := by
  have := dropWhile_append_stop p x [] hx (by intro h t ht; cases ht)
  simpa using this

theorem dropWhile_append_all {α} (p : α → Bool) (x y : List α)
    (hx : ∀ c ∈ x, p c = true) : (x ++ y).dropWhile p = y.dropWhile p := by
  induction x with
  | nil => rfl
  | cons a l ih =>
    have ha := hx a (List.mem_cons_self a l)
    simp only [List.cons_append, List.dropWhile_cons, ha, if_true]
    exact ih (fun c hc => hx c (List.mem_cons_of_mem a hc))

theorem dropWhile_append_of_ne_nil {α} (p : α → Bool) (x y : List α)
    (hx : x.dropWhile p ≠ []) : (x ++ y).dropWhile p = x.dropWhile p ++ y := by
  induction x with
  | nil => exact absurd rfl hx
  | cons a l ih =>
    by_cases ha : p a
    · rw [List.dropWhile_cons] at hx ⊢
      simp only [ha, if_true] at hx ⊢
      rw [List.cons_append, List.dropWhile_cons]
      simp only [ha, if_true]
      exact ih hx
    · simp [List.dropWhile_cons, ha]

theorem all_of_dropWhile_eq_nil {α} (p : α → Bool) (x : List α)
    (hx : x.dropWhile p = []) : ∀ c ∈ x, p c = true := by
  induction x with
  | nil => intro c hc; simp at hc
  | cons a l ih =>
    rw [List.dropWhile_cons] at hx
    by_cases ha : p a
    · simp only [ha, if_true] at hx
      intro c hc
      rcases List.mem_cons.mp hc with rfl | hc
      · exact ha
      · exact ih hx c hc
    · simp [ha] at hx

theorem take_append_self {α} (x y : List α) : (x ++ y).take x.length = x := by
  induction x with
  | nil => rfl
  | cons a l ih => simp [List.take_succ_cons, ih]

theorem drop_append_self {α} (x y : List α) : (x ++ y).drop x.length = y := by
  induction x with
  | nil => rfl
  | cons a l ih => simp [ih]

theorem drop_append_general {α} :
    ∀ (x y : List α) (r : Nat), (x ++ y).drop r = x.drop r ++ y.drop (r - x.length) := by
  intro x
  induction x with
  | nil => intro y r; simp
  | cons a l ih =>
    intro y r
    cases r with
    | zero => simp
    | succ n => simpa using ih y n

theorem mem_of_mem_drop' {α} {x : α} {l : List α} {n : Nat} (h : x ∈ l.drop n) : x ∈ l := by
  induction l generalizing n with
  | nil => simp at h
  | cons a t ih =>
    cases n with
    | zero => exact h
    | succ m => exact List.mem_cons_of_mem a (ih (by simpa using h))

theorem getLast?_append_right {α} (x : List α) {y : List α} (hy : y ≠ []) :
    (x ++ y).getLast? = y.getLast? := by
  induction x with
  | nil => rfl
  | cons a l ih =>
    rw [List.cons_append, ← ih]
    cases hl : l ++ y with
    | nil =>
      rcases List.append_eq_nil.mp hl with ⟨_, h⟩
      exact absurd h hy
    | cons b t => rw [List.getLast?_cons_cons]

/-! ## Character class facts -/

theorem ws_cases (c : Char) (h : pyIsSpace c = true) :
    c = ' ' ∨ c = '\t' ∨ c = '\n' ∨ c = '\r' ∨ c = Char.ofNat 11 ∨ c = Char.ofNat 12 := by
  simp only [pyIsSpace, Bool.or_eq_true, decide_eq_true_eq] at h
  tauto

theorem ws_not_digit (c : Char) (h : pyIsSpace c = true) : c.isDigit = false := by
  rcases ws_cases c h with h|h|h|h|h|h <;> subst h <;> decide

theorem digit_not_ws (c : Char) (h : c.isDigit = true) : pyIsSpace c = false := by
  cases hw : pyIsSpace c
  · rfl
  · rw [ws_not_digit c hw] at h
    cases h

theorem ws_ne_star (c : Char) (h : pyIsSpace c = true) : c ≠ '*' := by
  rcases ws_cases c h with h|h|h|h|h|h <;> subst h <;> decide

/-! ## Claim C1 -/

/-- A table listing with sector size 512, unit size 512 and the single data
row of the claim's scenario. -/
def c1_fdisk_output : String :=
  "Disk vm.raw: 100 MiB, 104857600 bytes, 204800 sectors\nUnits: sectors of 1 * 512 = 512 bytes\nSector size (logical/physical): 512 bytes / 512 bytes\nI/O size (minimum/optimal): 512 bytes / 512 bytes\nDisklabel type: dos\n\nType  Start  Sectors Boot\nLinux  2048  204800  *\n"

/-- A filesystem in which the image exists. -/
def c1_fs : FS := fun p => if p = "vm.raw" then some [0] else none

/-- Claim C1: for a table-listing output whose preamble reports sector size
512 and unit size 512, followed by the column header row and the single data
row `Linux  2048  204800  *`, `list_partitions` yields exactly one Partition
record with type "Linux", sector_size 512, start_sector 2048,
size_in_sectors 204800, bootable true, and no error. -/
theorem claim_c1_concrete_scenario :
    (list_partitions c1_fdisk_output c1_fs "vm.raw").result =
      .ok [{ type := "Linux", sector_size := 512, start_sector := 2048,
             size_in_sectors := 204800, bootable := true }] := by
  rfl

/-! ## Claim C2 -/

/-- Claim C2: whenever the declared sector size and the declared unit size
disagree, or the declared logical and physical sector sizes disagree,
`list_partitions` fails with an error naming both conflicting values and
never returns a partition list. -/
theorem claim_c2_size_mismatch_fails (out : String) (fs : FS) (img : String)
    (himg : fs img ≠ none) :
    (∀ ss u, parse_fdisk_sector_size out = .ok ss → parse_fdisk_units out = .ok u →
      ss ≠ u →
      (list_partitions out fs img).result =
        .error (.valueError ("partition table sector size and unit size differ: "
          ++ toString ss ++ " != " ++ toString u)) ∧
      ∀ ps, (list_partitions out fs img).result ≠ .ok ps)
    ∧ (∀ d1 d2, firstSectorSizeMatch out = some (d1, d2) → d1 ≠ d2 →
      (list_partitions out fs img).result =
        .error (.valueError ("partition table logical and physical sector sizes differ: "
          ++ String.mk d1 ++ " != " ++ String.mk d2)) ∧
      ∀ ps, (list_partitions out fs img).result ≠ .ok ps) := by
  obtain ⟨v, hv⟩ := Option.ne_none_iff_exists'.mp himg
  constructor
  · intro ss u h1 h2 hne
    have : (list_partitions out fs img).result =
        .error (.valueError ("partition table sector size and unit size differ: "
          ++ toString ss ++ " != " ++ toString u)) := by
      simp only [list_partitions, hv, Option.isNone_some, Bool.false_eq_true, if_false,
        h1, h2]
      rw [if_pos hne]
    exact ⟨this, fun ps h => by rw [this] at h; cases h⟩
  · intro d1 d2 hm hne
    have hss : parse_fdisk_sector_size out =
        .error (.valueError ("partition table logical and physical sector sizes differ: "
          ++ String.mk d1 ++ " != " ++ String.mk d2)) := by
      simp only [parse_fdisk_sector_size, hm, hne, ite_true, ne_eq, not_false_iff]
    have : (list_partitions out fs img).result =
        .error (.valueError ("partition table logical and physical sector sizes differ: "
          ++ String.mk d1 ++ " != " ++ String.mk d2)) := by
      simp only [list_partitions, hv, Option.isNone_some, Bool.false_eq_true, if_false, hss]
    exact ⟨this, fun ps h => by rw [this] at h; cases h⟩

/-- Witness data: fdisk output whose unit size (1024) disagrees with the
sector size (512). -/
def c2_mismatch_output : String :=
  "Units: sectors of 1 * 1024 = 1024 bytes\nSector size (logical/physical): 512 bytes / 512 bytes\n"

/-- Witness for claim C2 at a concrete mismatching output. -/
theorem claim_c2_witness :
    (list_partitions c2_mismatch_output c1_fs "vm.raw").result =
      .error (.valueError ("partition table sector size and unit size differ: "
        ++ toString 512 ++ " != " ++ toString 1024)) ∧
    ∀ ps, (list_partitions c2_mismatch_output c1_fs "vm.raw").result ≠ .ok ps :=
  (claim_c2_size_mismatch_fails c2_mismatch_output c1_fs "vm.raw"
    (by rw [show c1_fs "vm.raw" = some [0] from rfl]; intro h; cases h)).1
    512 1024 (by rfl) (by rfl) (by decide)

/-! ## Claim C10 -/

theorem parseRows_none_of_no_header (sz : Nat) (lines : List (List Char))
    (h : ∀ l ∈ lines, matchHeaderLine l = false) :
    parseRows sz lines false = .ok [] := by
  induction lines with
  | nil => rfl
  | cons l ls ih =>
    have hl := h l (List.mem_cons_self l ls)
    simp only [parseRows, hl, Bool.false_eq_true, if_false]
    exact ih (fun x hx => h x (List.mem_cons_of_mem l hx))

theorem parseRows_skip_before_header (sz : Nat) (pre rest : List (List Char))
    (h : ∀ l ∈ pre, matchHeaderLine l = false) :
    parseRows sz (pre ++ rest) false = parseRows sz rest false := by
  induction pre with
  | nil => rfl
  | cons l ls ih =>
    have hl := h l (List.mem_cons_self l ls)
    simp only [List.cons_append, parseRows, hl, Bool.false_eq_true, if_false]
    exact ih (fun x hx => h x (List.mem_cons_of_mem l hx))

/-- Claim C10: when the preamble sector size and unit size parse and agree
but no line matches the column-header pattern, `list_partitions` yields the
empty sequence without error; lines before (or in the absence of) the header
row are ignored regardless of their shape. -/
theorem claim_c10_no_header_empty (out : String) (fs : FS) (img : String)
    (himg : fs img ≠ none) (ss : Nat)
    (h1 : parse_fdisk_sector_size out = .ok ss)
    (h2 : parse_fdisk_units out = .ok ss)
    (hnh : ∀ l ∈ splitLinesChars out.toList, matchHeaderLine l = false) :
    (list_partitions out fs img).result = .ok []
    ∧ ∀ (sz : Nat) (pre rest : List (List Char)),
        (∀ l ∈ pre, matchHeaderLine l = false) →
        parseRows sz (pre ++ rest) false = parseRows sz rest false := by
  obtain ⟨v, hv⟩ := Option.ne_none_iff_exists'.mp himg
  constructor
  · simp only [list_partitions, hv, Option.isNone_some, Bool.false_eq_true, if_false,
      h1, h2]
    rw [if_neg (fun h => h rfl)]
    exact parseRows_none_of_no_header ss (splitLinesChars out.toList) hnh
  · exact fun sz pre rest h => parseRows_skip_before_header sz pre rest h

/-- Witness data: a well-formed preamble, no header line, one stray line. -/
def c10_output : String :=
  "Units: sectors of 1 * 512 = 512 bytes\nSector size (logical/physical): 512 bytes / 512 bytes\nStray line that matches no pattern !!\n"

/-- Witness for claim C10 at a concrete headerless output. -/
theorem claim_c10_witness :
    (list_partitions c10_output c1_fs "vm.raw").result = .ok []
    ∧ ∀ (sz : Nat) (pre rest : List (List Char)),
        (∀ l ∈ pre, matchHeaderLine l = false) →
        parseRows sz (pre ++ rest) false = parseRows sz rest false :=
  claim_c10_no_header_empty c10_output c1_fs "vm.raw"
    (by rw [show c1_fs "vm.raw" = some [0] from rfl]; intro h; cases h)
    512 (by rfl) (by rfl) (by decide)

/-! ## Claim C6 (corrected: stderr is not examined) -/

/-- A debugfs behaviour that exits 0 while writing to stderr. -/
def c6_beh : DebugfsBehaviour := fun _ fs => (0, "resolved output", "debugfs: complaint", fs)

/-- A filesystem in which the partition image exists. -/
def c6_fs : FS := fun q => if q = "part.img" then some [3] else none

/-- Counterexample to claim C6 as stated: the tool exits 0 with non-empty
standard error, yet `debugfs_command` succeeds and returns the captured
stdout — the operation does not fail on non-empty stderr. -/
theorem claim_c6_counterexample :
    c6_beh "stat /vmlinuz" c6_fs = (0, "resolved output", "debugfs: complaint", c6_fs)
    ∧ (debugfs_command c6_beh c6_fs "part.img" "stat /vmlinuz").result =
        .ok "resolved output" :=
  ⟨rfl, rfl⟩

/-- Claim C6 (amended): given the partition image exists, `debugfs_command`
fails if and only if the tool's exit status is non-zero, the failure carries
the captured stdout and stderr, and on success it returns the captured
stdout; the stderr content is not examined. -/
theorem claim_c6_amended (beh : DebugfsBehaviour) (fs : FS) (p c : String)
    (hp : fs p ≠ none) (rc : Int) (out err : String) (fs2 : FS)
    (hrun : beh c fs = (rc, out, err, fs2)) :
    (rc ≠ 0 → (debugfs_command beh fs p c).result =
        .error (.calledProcessError rc (debugfsCmd p) out err))
    ∧ (rc = 0 → (debugfs_command beh fs p c).result = .ok out) := by
  obtain ⟨v, hv⟩ := Option.ne_none_iff_exists'.mp hp
  constructor
  · intro hrc
    simp only [debugfs_command, hv, Option.isNone_some, Bool.false_eq_true, if_false, hrun]
    rw [if_pos hrc]
  · intro hrc
    simp only [debugfs_command, hv, Option.isNone_some, Bool.false_eq_true, if_false, hrun]
    rw [if_neg (by rw [hrc]; exact fun h => h rfl)]

/-- Witness for the amended claim C6 at a concrete failing invocation. -/
theorem claim_c6_witness :
    (debugfs_command (fun _ fs => (2, "so", "se", fs)) c6_fs "part.img" "stat /x").result =
      .error (.calledProcessError 2 (debugfsCmd "part.img") "so" "se") :=
  (claim_c6_amended (fun _ fs => (2, "so", "se", fs)) c6_fs "part.img" "stat /x"
    (by rw [show c6_fs "part.img" = some [3] from rfl]; intro h; cases h)
    2 "so" "se" c6_fs rfl).1 (by decide)

/-! ## Claim C8 -/

/-- Claim C8: `iso_extract_file` returns the extracted raw bytes when the
(successful) tool invocation produced non-empty output, fails with an error
naming the requested path and the ISO when the output is empty, fails on any
empty output, and never returns empty bytes. -/
theorem claim_c8_iso_extract (rc : Int) (outB errB : List Nat) (iso path : String) :
    (rc = 0 → outB ≠ [] → iso_extract_file rc outB errB iso path = .ok outB)
    ∧ (rc = 0 → outB = [] → iso_extract_file rc outB errB iso path =
        .error (.valueError ("failed to extract file: " ++ path ++ " from ISO: " ++ iso)))
    ∧ (outB = [] → ∃ e, iso_extract_file rc outB errB iso path = .error e)
    ∧ (∀ bs, iso_extract_file rc outB errB iso path = .ok bs → bs ≠ []) := by
  refine ⟨?_, ?_, ?_, ?_⟩
  · intro hrc hout
    simp only [iso_extract_file]
    rw [if_neg (by rw [hrc]; exact fun h => h rfl), if_neg hout]
  · intro hrc hout
    simp only [iso_extract_file]
    rw [if_neg (by rw [hrc]; exact fun h => h rfl), if_pos hout]
  · intro hout
    simp only [iso_extract_file]
    by_cases hrc : rc ≠ 0
    · rw [if_pos hrc]; exact ⟨_, rfl⟩
    · rw [if_neg hrc, if_pos hout]; exact ⟨_, rfl⟩
  · intro bs hbs
    simp only [iso_extract_file] at hbs
    by_cases hrc : rc ≠ 0
    · rw [if_pos hrc] at hbs; cases hbs
    · rw [if_neg hrc] at hbs
      by_cases hout : outB = []
      · rw [if_pos hout] at hbs; cases hbs
      · rw [if_neg hout] at hbs
        cases hbs
        exact hout

/-- Witness for claim C8 at a concrete successful extraction. -/
theorem claim_c8_witness :
    iso_extract_file 0 [7, 8] [] "debian.iso" "/install.amd/vmlinuz" = .ok [7, 8] :=
  (claim_c8_iso_extract 0 [7, 8] [] "debian.iso" "/install.amd/vmlinuz").1
    rfl (by decide)

/-! ## Claim C9 -/

/-- Debugfs stat output containing the claim's `Fast link dest:` line. -/
def c9_output : String :=
  "Inode: 12   Type: symlink    Mode:  0777\nFast link dest: \"boot/vmlinuz-4.19.0-16-amd64\"\nLinks: 1\n"

/-- Claim C9: `parse_symlink_target` scans the output for a
`Fast link dest:` line, strips shell-style quoting, and succeeds only when
exactly one token remains after unescaping; on the claim's concrete output
it returns exactly `boot/vmlinuz-4.19.0-16-amd64`. -/
theorem claim_c9_symlink_target :
    parse_symlink_target c9_output = .ok "boot/vmlinuz-4.19.0-16-amd64"
    ∧ ∀ out t, parse_symlink_target out = .ok t →
        ∃ g, (splitLinesChars out.toList).findSome? matchFastLinkLine = some g
          ∧ pyShlexSplit (String.mk g) = .ok [t] := by
  constructor
  · rfl
  · intro out t h
    unfold parse_symlink_target at h
    cases hf : (splitLinesChars out.toList).findSome? matchFastLinkLine with
    | none => rw [hf] at h; cases h
    | some g =>
      simp only [hf] at h
      refine ⟨g, rfl, ?_⟩
      cases hs : pyShlexSplit (String.mk g) with
      | error m => simp [hs] at h
      | ok toks =>
        simp only [hs] at h
        rcases toks with _ | ⟨t', rest⟩
        · simp at h
        · rcases rest with _ | ⟨x, xs⟩
          · simp only [Except.ok.injEq] at h
            rw [h]
          · simp at h

/-- Witness for claim C9: applying the soundness part at the concrete
output recovers the shlex-split of the quoted group. -/
theorem claim_c9_witness :
    ∃ g, (splitLinesChars c9_output.toList).findSome? matchFastLinkLine = some g
      ∧ pyShlexSplit (String.mk g) = .ok ["boot/vmlinuz-4.19.0-16-amd64"] :=
  claim_c9_symlink_target.2 c9_output "boot/vmlinuz-4.19.0-16-amd64"
    claim_c9_symlink_target.1

/-! ## Claim C7: pre-existing destinations block every create/extract
operation before any tool invocation -/

theorem create_image_dest_exists (created : List Nat) (fs : FS) (dest size : String)
    (h : (fs dest).isSome = true) :
    create_image created fs dest size =
      ⟨.error (.valueError ("already exists: " ++ dest)), fs, []⟩ := by
  simp only [create_image, h, if_true]

theorem image_to_raw_dest_exists (conv : List Nat → List Nat) (fs : FS)
    (input dest : String) (h : (fs dest).isSome = true) :
    ∃ e, image_to_raw conv fs input dest = ⟨.error e, fs, []⟩ := by
  by_cases hi : (fs input).isNone
  · exact ⟨.valueError ("file not found: " ++ input),
      by simp only [image_to_raw, hi, if_true]⟩
  · exact ⟨.valueError ("already exists: " ++ dest),
      by simp only [image_to_raw, hi, Bool.false_eq_true, if_false, h, if_true]⟩

theorem extract_boot_partition_dest_exists (fd : String) (fs : FS)
    (img dest : String) (h : (fs dest).isSome = true) :
    ∃ e, extract_boot_partition fd fs img dest = ⟨.error e, fs, []⟩ := by
  cases hfi : fs img with
  | none => exact ⟨.valueError ("file not found: " ++ img),
      by simp only [extract_boot_partition, hfi]⟩
  | some bytes =>
    exact ⟨.valueError ("already exists: " ++ dest),
      by simp only [extract_boot_partition, hfi, h, if_true]⟩

theorem epbf_precheck (beh : DebugfsBehaviour) (fs : FS) (p k i : String)
    (h : fs p = none ∨ (fs k).isSome = true ∨ (fs i).isSome = true) :
    ∃ e, extract_partition_boot_files beh fs p k i = ⟨.error e, fs, []⟩ := by
  by_cases hp : (fs p).isNone
  · exact ⟨.valueError ("file not found: " ++ p),
      by simp only [extract_partition_boot_files, hp, if_true]⟩
  · have hki : (fs k).isSome = true ∨ (fs i).isSome = true := by
      rcases h with h | h | h
      · exact absurd (by rw [h]; rfl) hp
      · exact Or.inl h
      · exact Or.inr h
    by_cases hk : (fs k).isSome
    · exact ⟨.valueError ("already exists: " ++ k), by
        simp only [extract_partition_boot_files, hp, Bool.false_eq_true, if_false,
          hk, if_true]⟩
    · have hi : (fs i).isSome = true := by
        rcases hki with h' | h'
        · exact absurd h' hk
        · exact h'
      exact ⟨.valueError ("already exists: " ++ i), by
        simp only [extract_partition_boot_files, hp, Bool.false_eq_true, if_false,
          hk, hi, if_true]⟩

/-- Claim C7: for each create/extract-to-path operation (`create_image`,
`image_to_raw`, `extract_boot_partition`, `extract_partition_boot_files`),
a pre-existing destination makes the operation fail with no tool invocation
and an unchanged filesystem, and a second call against the same destination
returns exactly the same outcome. -/
theorem claim_c7_never_overwrite (fs : FS) (dest : String)
    (hdest : (fs dest).isSome = true) :
    (∀ created size,
      create_image created fs dest size =
        ⟨.error (.valueError ("already exists: " ++ dest)), fs, []⟩
      ∧ create_image created (create_image created fs dest size).fs dest size =
          create_image created fs dest size)
    ∧ (∀ conv input,
      (∃ e, image_to_raw conv fs input dest = ⟨.error e, fs, []⟩)
      ∧ image_to_raw conv (image_to_raw conv fs input dest).fs input dest =
          image_to_raw conv fs input dest)
    ∧ (∀ fd img,
      (∃ e, extract_boot_partition fd fs img dest = ⟨.error e, fs, []⟩)
      ∧ extract_boot_partition fd (extract_boot_partition fd fs img dest).fs img dest =
          extract_boot_partition fd fs img dest)
    ∧ (∀ beh p other,
      ((∃ e, extract_partition_boot_files beh fs p dest other = ⟨.error e, fs, []⟩)
        ∧ extract_partition_boot_files beh
            (extract_partition_boot_files beh fs p dest other).fs p dest other =
          extract_partition_boot_files beh fs p dest other)
      ∧ ((∃ e, extract_partition_boot_files beh fs p other dest = ⟨.error e, fs, []⟩)
        ∧ extract_partition_boot_files beh
            (extract_partition_boot_files beh fs p other dest).fs p other dest =
          extract_partition_boot_files beh fs p other dest)) := by
  refine ⟨?_, ?_, ?_, ?_⟩
  · intro created size
    have h1 := create_image_dest_exists created fs dest size hdest
    exact ⟨h1, by rw [h1]; exact h1⟩
  · intro conv input
    obtain ⟨e, h1⟩ := image_to_raw_dest_exists conv fs input dest hdest
    exact ⟨⟨e, h1⟩, by rw [h1]; exact h1⟩
  · intro fd img
    obtain ⟨e, h1⟩ := extract_boot_partition_dest_exists fd fs img dest hdest
    exact ⟨⟨e, h1⟩, by rw [h1]; exact h1⟩
  · intro beh p other
    constructor
    · obtain ⟨e, h1⟩ := epbf_precheck beh fs p dest other (Or.inr (Or.inl hdest))
      exact ⟨⟨e, h1⟩, by rw [h1]; exact h1⟩
    · obtain ⟨e, h1⟩ := epbf_precheck beh fs p other dest (Or.inr (Or.inr hdest))
      exact ⟨⟨e, h1⟩, by rw [h1]; exact h1⟩

/-- Witness for claim C7: the concrete filesystem `c1_fs` already holds
`vm.raw`, so creating an image there fails identically twice over. -/
theorem claim_c7_witness :
    create_image [5] c1_fs "vm.raw" "10G" =
      ⟨.error (.valueError ("already exists: " ++ "vm.raw")), c1_fs, []⟩
    ∧ create_image [5] (create_image [5] c1_fs "vm.raw" "10G").fs "vm.raw" "10G" =
        create_image [5] c1_fs "vm.raw" "10G" :=
  (claim_c7_never_overwrite c1_fs "vm.raw" (by rfl)).1 [5] "10G"

/-! ## Claim C5 (corrected: a failing second dump leaves the kernel file) -/

/-- A debugfs behaviour whose stats succeed, whose first dump succeeds and
creates the kernel file, and whose second dump exits non-zero. -/
def c5_beh : DebugfsBehaviour := fun cmd fs =>
  if cmd = "stat /vmlinuz" then (0, "Fast link dest: \"boot/k\"\n", "", fs)
  else if cmd = "stat /initrd.img" then (0, "Fast link dest: \"boot/rd\"\n", "", fs)
  else if cmd = "dump boot/k K" then (0, "", "", fsSet fs "K" [1, 2])
  else (1, "", "dump failed", fs)

/-- A filesystem holding only the partition image. -/
def c5_fs : FS := fun q => if q = "P" then some [9] else none

/-- Counterexample to claim C5 as stated: when the second dump fails after
the first dump succeeded, `extract_partition_boot_files` fails but leaves
the kernel output file behind while the initrd output file does not exist —
the complete-pair-or-none property does not hold. -/
theorem claim_c5_counterexample :
    (extract_partition_boot_files c5_beh c5_fs "P" "K" "I").result =
      .error (.calledProcessError 1 (debugfsCmd "P") "" "dump failed")
    ∧ (extract_partition_boot_files c5_beh c5_fs "P" "K" "I").fs "K" = some [1, 2]
    ∧ (extract_partition_boot_files c5_beh c5_fs "P" "K" "I").fs "I" = none :=
  ⟨rfl, rfl, rfl⟩

/-- Claim C5 (amended): `extract_partition_boot_files` checks both the
kernel and the initrd destination paths for pre-existence before invoking
the filesystem-debugging tool at all; if either destination pre-exists it
fails without any tool invocation and with the filesystem unchanged, so a
pre-existing destination never leads to a partial pair.  (A failure of the
second dump itself can still leave the first dump's output behind.) -/
theorem claim_c5_amended (beh : DebugfsBehaviour) (fs : FS) (p k i : String)
    (h : (fs k).isSome = true ∨ (fs i).isSome = true) :
    ∃ e, extract_partition_boot_files beh fs p k i = ⟨.error e, fs, []⟩ :=
  epbf_precheck beh fs p k i (Or.inr h)

/-- Witness for the amended claim C5: a pre-existing initrd destination
blocks the extraction with no tool call. -/
theorem claim_c5_witness :
    ∃ e, extract_partition_boot_files c5_beh c1_fs "P" "K" "vm.raw" =
      ⟨.error e, c1_fs, []⟩ :=
  claim_c5_amended c5_beh c1_fs "P" "K" "vm.raw" (Or.inr (by rfl))

/-! ## Claim C3 -/

theorem find?_first_match {α} (p : α → Bool) (pre : List α) (x : α) (post : List α)
    (hpre : ∀ q ∈ pre, p q = false) (hx : p x = true) :
    (pre ++ x :: post).find? p = some x := by
  induction pre with
  | nil => simp [List.find?_cons_of_pos _ hx]
  | cons a l ih =>
    have ha : p a = false := hpre a (List.mem_cons_self a l)
    rw [List.cons_append, List.find?_cons_of_neg _ (by rw [ha]; exact fun h => nomatch h)]
    exact ih (fun q hq => hpre q (List.mem_cons_of_mem a hq))

theorem find?_none_of_all {α} (p : α → Bool) (l : List α)
    (h : ∀ q ∈ l, p q = false) : l.find? p = none := by
  induction l with
  | nil => rfl
  | cons a t ih =>
    have ha : p a = false := h a (List.mem_cons_self a t)
    rw [List.find?_cons_of_neg _ (by rw [ha]; exact fun hh => nomatch hh)]
    exact ih (fun q hq => h q (List.mem_cons_of_mem a hq))

/-- Claim C3: `extract_boot_partition` copies the byte range
`(start_sector * sector_size, size_in_sectors * sector_size)` of the first
partition in table order satisfying the bootable-Linux criterion; with no
such partition it fails with the explicit "no bootable Linux partition
found" error, and the criterion is exactly type = "Linux" with the bootable
flag set. -/
theorem claim_c3_first_bootable_linux (out : String) (fs : FS) (img dest : String)
    (bytes : List Nat) (ps : List Partition)
    (himg : fs img = some bytes) (hdest : fs dest = none)
    (hps : (list_partitions out fs img).result = .ok ps) :
    (∀ pre p post, ps = pre ++ p :: post →
      (∀ q ∈ pre, isBootableLinux q = false) → isBootableLinux p = true →
      extract_boot_partition out fs img dest =
        ⟨.ok (),
          fsSet fs dest ((bytes.drop (p.start_sector * p.sector_size)).take
            (p.size_in_sectors * p.sector_size)),
          [ToolCall.fdisk img,
           ToolCall.dd img dest p.sector_size p.start_sector p.size_in_sectors]⟩)
    ∧ ((∀ q ∈ ps, isBootableLinux q = false) →
      extract_boot_partition out fs img dest =
        ⟨.error (.valueError "no bootable Linux partition found"), fs,
          [ToolCall.fdisk img]⟩)
    ∧ (∀ q, isBootableLinux q = true ↔ (q.type = "Linux" ∧ q.bootable = true)) := by
  have hdest' : (fs dest).isSome = false := by rw [hdest]; rfl
  refine ⟨?_, ?_, ?_⟩
  · intro pre p post hsplit hpre hp
    have hfind : ps.find? isBootableLinux = some p := by
      rw [hsplit]; exact find?_first_match isBootableLinux pre p post hpre hp
    simp only [extract_boot_partition, himg, hdest', Bool.false_eq_true, if_false,
      hps, hfind]
  · intro hnone
    have hfind : ps.find? isBootableLinux = none := find?_none_of_all _ ps hnone
    simp only [extract_boot_partition, himg, hdest', Bool.false_eq_true, if_false,
      hps, hfind]
  · intro q
    simp [isBootableLinux]

/-- Witness for claim C3: the concrete table of claim C1 makes
`extract_boot_partition` copy the 512-byte-sector range of the single
bootable Linux partition. -/
theorem claim_c3_witness :
    extract_boot_partition c1_fdisk_output c1_fs "vm.raw" "vm.bootable" =
      ⟨.ok (),
        fsSet c1_fs "vm.bootable" ((([0] : List Nat).drop (2048 * 512)).take
          (204800 * 512)),
        [ToolCall.fdisk "vm.raw", ToolCall.dd "vm.raw" "vm.bootable" 512 2048 204800]⟩ :=
  (claim_c3_first_bootable_linux c1_fdisk_output c1_fs "vm.raw" "vm.bootable" [0]
    [{ type := "Linux", sector_size := 512, start_sector := 2048,
       size_in_sectors := 204800, bootable := true }]
    rfl rfl (by rfl)).1 []
    { type := "Linux", sector_size := 512, start_sector := 2048,
      size_in_sectors := 204800, bootable := true } []
    rfl (by intro q hq; cases hq) (by decide)

/-! ## Claim C4 (corrected: a marker-less row needs trailing whitespace) -/

theorem isEmpty_false_of_ne_nil {α} {l : List α} (h : l ≠ []) : l.isEmpty = false := by
  cases l with
  | nil => exact absurd rfl h
  | cons a t => rfl

theorem drop_nil_of_le {α} : ∀ {l : List α} {n : Nat}, l.length ≤ n → l.drop n = [] := by
  intro l
  induction l with
  | nil => intro n _; simp
  | cons a t ih =>
    intro n h
    cases n with
    | zero => simp at h
    | succ k => exact ih (by simpa using h)

theorem drop_ne_nil_of_lt {α} {l : List α} {n : Nat} (h : n < l.length) :
    l.drop n ≠ [] := by
  intro hcontra
  have hlen := congrArg List.length hcontra
  rw [List.length_drop] at hlen
  simp at hlen
  omega

theorem getLast?_mem_of_ne_nil {α} : ∀ (l : List α), l ≠ [] →
    ∃ u, l.getLast? = some u ∧ u ∈ l := by
  intro l
  induction l with
  | nil => intro h; exact absurd rfl h
  | cons a t ih =>
    intro _
    cases ht : t with
    | nil => exact ⟨a, rfl, List.mem_singleton.mpr rfl⟩
    | cons b t' =>
      obtain ⟨u, hu1, hu2⟩ := ih (by rw [ht]; exact fun h => nomatch h)
      rw [ht] at hu1 hu2
      exact ⟨u, by rw [List.getLast?_cons_cons, hu1],
        List.mem_cons_of_mem a (ht ▸ hu2)⟩

theorem matchTail_eq (w : Char) (d1 b d2 c : List Char)
    (hw : pyIsSpace w = true)
    (hd1 : d1 ≠ []) (hd1d : ∀ x ∈ d1, x.isDigit = true)
    (hb : b ≠ []) (hbw : ∀ x ∈ b, pyIsSpace x = true)
    (hd2 : d2 ≠ []) (hd2d : ∀ x ∈ d2, x.isDigit = true)
    (hc : c ≠ []) (hcw : ∀ x ∈ c, pyIsSpace x = true) :
    matchTail (w :: (d1 ++ (b ++ (d2 ++ c)))) = some (d1, d2) := by
  have hwx : ∀ u ∈ [w], pyIsSpace u = true := by
    intro u hu
    rcases List.mem_singleton.mp hu with rfl
    exact hw
  have stop1 : ∀ h t, d1 ++ (b ++ (d2 ++ c)) = h :: t → pyIsSpace h = false :=
    stop_of_append _ hd1 (fun u hu => digit_not_ws u (hd1d u hu))
  have stop2 : ∀ h t, b ++ (d2 ++ c) = h :: t → Char.isDigit h = false :=
    stop_of_append _ hb (fun u hu => ws_not_digit u (hbw u hu))
  have stop3 : ∀ h t, d2 ++ c = h :: t → pyIsSpace h = false :=
    stop_of_append _ hd2 (fun u hu => digit_not_ws u (hd2d u hu))
  have stop4 : ∀ h t, c = h :: t → Char.isDigit h = false := by
    intro h t ht
    exact ws_not_digit h (hcw h (ht ▸ List.mem_cons_self h t))
  have h1 : (w :: (d1 ++ (b ++ (d2 ++ c)))).takeWhile pyIsSpace = [w] :=
    takeWhile_append_stop pyIsSpace [w] _ hwx stop1
  have h2 : (w :: (d1 ++ (b ++ (d2 ++ c)))).dropWhile pyIsSpace = d1 ++ (b ++ (d2 ++ c)) :=
    dropWhile_append_stop pyIsSpace [w] _ hwx stop1
  have h3 : (d1 ++ (b ++ (d2 ++ c))).takeWhile Char.isDigit = d1 :=
    takeWhile_append_stop Char.isDigit d1 _ hd1d stop2
  have h4 : (d1 ++ (b ++ (d2 ++ c))).dropWhile Char.isDigit = b ++ (d2 ++ c) :=
    dropWhile_append_stop Char.isDigit d1 _ hd1d stop2
  have h5 : (b ++ (d2 ++ c)).takeWhile pyIsSpace = b :=
    takeWhile_append_stop pyIsSpace b _ hbw stop3
  have h6 : (b ++ (d2 ++ c)).dropWhile pyIsSpace = d2 ++ c :=
    dropWhile_append_stop pyIsSpace b _ hbw stop3
  have h7 : (d2 ++ c).takeWhile Char.isDigit = d2 :=
    takeWhile_append_stop Char.isDigit d2 c hd2d stop4
  have h8 : (d2 ++ c).dropWhile Char.isDigit = c :=
    dropWhile_append_stop Char.isDigit d2 c hd2d stop4
  simp only [matchTail, h1, h2, h3, h4, h5, h6, h7, h8]
  simp [isEmpty_false_of_ne_nil hd1, isEmpty_false_of_ne_nil hb,
    isEmpty_false_of_ne_nil hd2, isEmpty_false_of_ne_nil hc, List.all_eq_true]
  exact hcw

theorem matchTail_none_digit_head (hd : Char) (tl : List Char) (h : hd.isDigit = true) :
    matchTail (hd :: tl) = none := by
  have hws : pyIsSpace hd = false := digit_not_ws hd h
  simp [matchTail, List.takeWhile_cons, hws]

theorem matchTail_none_all_ws (s : List Char) (h : ∀ x ∈ s, pyIsSpace x = true) :
    matchTail s = none := by
  have h1 : s.takeWhile pyIsSpace = s := takeWhile_all_eq _ s h
  have h2 : s.dropWhile pyIsSpace = [] := dropWhile_all_eq _ s h
  simp [matchTail, h1, h2]

theorem matchTail_none_ws_digit_ws (x y z : List Char)
    (hx : x ≠ []) (hxw : ∀ u ∈ x, pyIsSpace u = true)
    (hy : y ≠ []) (hyd : ∀ u ∈ y, u.isDigit = true)
    (hzw : ∀ u ∈ z, pyIsSpace u = true) :
    matchTail (x ++ (y ++ z)) = none := by
  have stopY : ∀ h t, y ++ z = h :: t → pyIsSpace h = false :=
    stop_of_append _ hy (fun u hu => digit_not_ws u (hyd u hu))
  have stopZ : ∀ h t, z = h :: t → Char.isDigit h = false := by
    intro h t ht
    exact ws_not_digit h (hzw h (ht ▸ List.mem_cons_self h t))
  have h1 : (x ++ (y ++ z)).takeWhile pyIsSpace = x :=
    takeWhile_append_stop _ x _ hxw stopY
  have h2 : (x ++ (y ++ z)).dropWhile pyIsSpace = y ++ z :=
    dropWhile_append_stop _ x _ hxw stopY
  have h3 : (y ++ z).takeWhile Char.isDigit = y :=
    takeWhile_append_stop _ y z hyd stopZ
  have h4 : (y ++ z).dropWhile Char.isDigit = z :=
    dropWhile_append_stop _ y z hyd stopZ
  have h5 : z.takeWhile pyIsSpace = z := takeWhile_all_eq _ z hzw
  have h6 : z.dropWhile pyIsSpace = [] := dropWhile_all_eq _ z hzw
  simp [matchTail, h1, h2, h3, h4, h5, h6]

theorem matchTail_drop_none (d1 b d2 c : List Char)
    (hd1d : ∀ u ∈ d1, u.isDigit = true)
    (hb : b ≠ []) (hbw : ∀ u ∈ b, pyIsSpace u = true)
    (hd2 : d2 ≠ []) (hd2d : ∀ u ∈ d2, u.isDigit = true)
    (hc : c ≠ []) (hcw : ∀ u ∈ c, pyIsSpace u = true) :
    ∀ r, matchTail ((d1 ++ (b ++ (d2 ++ c))).drop r) = none := by
  intro r
  rw [drop_append_general]
  by_cases hr1 : r < d1.length
  · rw [Nat.sub_eq_zero_of_le (Nat.le_of_lt hr1), List.drop_zero]
    rw [List.drop_eq_getElem_cons hr1, List.cons_append]
    exact matchTail_none_digit_head _ _ (hd1d _ (List.getElem_mem hr1))
  · rw [drop_nil_of_le (Nat.le_of_not_lt hr1), List.nil_append]
    rw [drop_append_general]
    by_cases hr2 : r - d1.length < b.length
    · rw [Nat.sub_eq_zero_of_le (Nat.le_of_lt hr2), List.drop_zero]
      exact matchTail_none_ws_digit_ws (b.drop (r - d1.length)) d2 c
        (drop_ne_nil_of_lt hr2)
        (fun u hu => hbw u (mem_of_mem_drop' hu))
        hd2 hd2d hcw
    · rw [drop_nil_of_le (Nat.le_of_not_lt hr2), List.nil_append]
      rw [drop_append_general]
      by_cases hr3 : r - d1.length - b.length < d2.length
      · rw [Nat.sub_eq_zero_of_le (Nat.le_of_lt hr3), List.drop_zero]
        rw [List.drop_eq_getElem_cons hr3, List.cons_append]
        exact matchTail_none_digit_head _ _ (hd2d _ (List.getElem_mem hr3))
      · rw [drop_nil_of_le (Nat.le_of_not_lt hr3), List.nil_append]
        exact matchTail_none_all_ws _ (fun u hu => hcw u (mem_of_mem_drop' hu))

theorem bestSplitGo_spec (core : List Char) (m : Nat) (s1 s2 : List Char)
    (hm : 1 ≤ m)
    (hnl : (core.take m).all (fun c => c ≠ '\n') = true)
    (hsucc : matchTail (core.drop m) = some (s1, s2)) :
    ∀ n, m ≤ n → (∀ j, m < j → j ≤ n → matchTail (core.drop j) = none) →
    bestSplitGo core n = some (core.take m, s1, s2) := by
  intro n
  induction n with
  | zero =>
    intro hmn _
    exact ((by omega : False)).elim
  | succ k ih =>
    intro hmn hfail
    by_cases hmk : m = k + 1
    · subst hmk
      simp only [bestSplitGo]
      rw [if_pos hnl, hsucc]
    · have hmk' : m ≤ k := by omega
      have hfk : matchTail (core.drop (k + 1)) = none := hfail (k + 1) (by omega) (by omega)
      by_cases hall : (core.take (k + 1)).all (fun c => c ≠ '\n') = true
      · simp only [bestSplitGo]
        rw [if_pos hall, hfk]
        exact ih hmk' (fun j hj1 hj2 => hfail j hj1 (by omega))
      · simp only [bestSplitGo]
        rw [if_neg hall]
        exact ih hmk' (fun j hj1 hj2 => hfail j hj1 (by omega))

theorem pyStripChars_append_ws (ty a : List Char)
    (ha : ∀ x ∈ a, pyIsSpace x = true) :
    pyStripChars (ty ++ a) = pyStripChars ty := by
  unfold pyStripChars
  by_cases hz : ty.dropWhile pyIsSpace = []
  · have h1 : (ty ++ a).dropWhile pyIsSpace = a.dropWhile pyIsSpace :=
      dropWhile_append_all _ ty a (all_of_dropWhile_eq_nil _ ty hz)
    rw [h1, hz, dropWhile_all_eq _ a ha]
  · have h1 : (ty ++ a).dropWhile pyIsSpace = ty.dropWhile pyIsSpace ++ a :=
      dropWhile_append_of_ne_nil _ ty a hz
    rw [h1, List.reverse_append]
    rw [dropWhile_append_all _ a.reverse _ (fun u hu => ha u (List.mem_reverse.mp hu))]

theorem matchDataRow_no_marker (ty a : List Char) (w : Char) (d1 b d2 c : List Char)
    (hty : ty ≠ []) (htyn : ∀ x ∈ ty, x ≠ '\n')
    (haw : ∀ x ∈ a, pyIsSpace x = true) (han : ∀ x ∈ a, x ≠ '\n')
    (hw : pyIsSpace w = true)
    (hd1 : d1 ≠ []) (hd1d : ∀ x ∈ d1, x.isDigit = true)
    (hb : b ≠ []) (hbw : ∀ x ∈ b, pyIsSpace x = true)
    (hd2 : d2 ≠ []) (hd2d : ∀ x ∈ d2, x.isDigit = true)
    (hc : c ≠ []) (hcw : ∀ x ∈ c, pyIsSpace x = true) :
    matchDataRow ((ty ++ a) ++ (w :: (d1 ++ (b ++ (d2 ++ c))))) =
      some (ty ++ a, d1, d2, "") := by
  obtain ⟨u, hu1, hu2⟩ := getLast?_mem_of_ne_nil c hc
  have hD1 : d1 ++ (b ++ (d2 ++ c)) ≠ [] := by
    intro hcontra
    rcases List.append_eq_nil.mp hcontra with ⟨h', _⟩
    exact hd1 h'
  have hne0 : w :: (d1 ++ (b ++ (d2 ++ c))) ≠ [] := fun h => nomatch h
  have hne1 : b ++ (d2 ++ c) ≠ [] := by
    intro hcontra
    rcases List.append_eq_nil.mp hcontra with ⟨h', _⟩
    exact hb h'
  have hlast : ((ty ++ a) ++ (w :: (d1 ++ (b ++ (d2 ++ c))))).getLast? = some u := by
    rw [getLast?_append_right (ty ++ a) hne0]
    have hcons : w :: (d1 ++ (b ++ (d2 ++ c))) = [w] ++ (d1 ++ (b ++ (d2 ++ c))) := rfl
    rw [hcons, getLast?_append_right [w] hD1]
    rw [getLast?_append_right d1 hne1]
    rw [getLast?_append_right b (by
      intro hcontra
      rcases List.append_eq_nil.mp hcontra with ⟨h', _⟩
      exact hd2 h' : d2 ++ c ≠ [])]
    rw [getLast?_append_right d2 hc]
    exact hu1
  have hnotstar : ¬(((ty ++ a) ++ (w :: (d1 ++ (b ++ (d2 ++ c))))).getLast? = some '*') := by
    rw [hlast]
    intro hcontra
    have : u = '*' := by injection hcontra
    exact ws_ne_star u (hcw u hu2) this
  rw [matchDataRow, if_neg hnotstar]
  have hm1 : 1 ≤ (ty ++ a).length := by
    cases ty with
    | nil => exact absurd rfl hty
    | cons _ _ => simp only [List.cons_append, List.length_cons]; omega
  have htake : ((ty ++ a) ++ (w :: (d1 ++ (b ++ (d2 ++ c))))).take (ty ++ a).length
      = ty ++ a := take_append_self _ _
  have hdrop : ((ty ++ a) ++ (w :: (d1 ++ (b ++ (d2 ++ c))))).drop (ty ++ a).length
      = w :: (d1 ++ (b ++ (d2 ++ c))) := drop_append_self _ _
  have hnl : (((ty ++ a) ++ (w :: (d1 ++ (b ++ (d2 ++ c))))).take
      (ty ++ a).length).all (fun x => x ≠ '\n') = true := by
    rw [htake]
    rw [List.all_eq_true]
    intro x hx
    rcases List.mem_append.mp hx with hx | hx
    · simpa using htyn x hx
    · simpa using han x hx
  have hsucc : matchTail (((ty ++ a) ++ (w :: (d1 ++ (b ++ (d2 ++ c))))).drop
      (ty ++ a).length) = some (d1, d2) := by
    rw [hdrop]
    exact matchTail_eq w d1 b d2 c hw hd1 hd1d hb hbw hd2 hd2d hc hcw
  have hfail : ∀ j, (ty ++ a).length < j →
      j ≤ ((ty ++ a) ++ (w :: (d1 ++ (b ++ (d2 ++ c))))).length →
      matchTail (((ty ++ a) ++ (w :: (d1 ++ (b ++ (d2 ++ c))))).drop j) = none := by
    intro j hj1 _
    rw [drop_append_general, drop_nil_of_le (Nat.le_of_lt hj1), List.nil_append]
    obtain ⟨k, hk⟩ : ∃ k, j - (ty ++ a).length = k + 1 :=
      ⟨j - (ty ++ a).length - 1, by omega⟩
    rw [hk, List.drop_succ_cons]
    exact matchTail_drop_none d1 b d2 c hd1d hb hbw hd2 hd2d hc hcw k
  have hlen : (ty ++ a).length ≤ ((ty ++ a) ++ (w :: (d1 ++ (b ++ (d2 ++ c))))).length := by
    simp only [List.length_append, List.length_cons]
    omega
  rw [bestSplitGo_spec _ (ty ++ a).length d1 d2 hm1 hnl hsucc _ hlen hfail]
  rw [htake]
  rfl

/-- Counterexample input to claim C4 as stated: a well-formed table whose
single data row has a valid type field and two non-negative integers, lacks
the boot marker, and ends directly after the second integer. -/
def c4_fdisk_output : String :=
  "Units: sectors of 1 * 512 = 512 bytes\nSector size (logical/physical): 512 bytes / 512 bytes\nType  Start  Sectors Boot\nLinux  2048  204800\n"

/-- Counterexample to claim C4 as stated: the marker-less data row
`Linux  2048  204800` makes the parse fail, because the row pattern requires
whitespace before the (optional) boot marker, so absence of the marker is a
parse error whenever the row has no trailing whitespace. -/
theorem claim_c4_counterexample :
    (list_partitions c4_fdisk_output c1_fs "vm.raw").result =
      .error (.valueError "unable to parse partition line: Linux  2048  204800") := by
  rfl

/-- Claim C4 (amended): for every data row built of a type field, whitespace,
a first integer, whitespace, a second integer and at least one trailing
whitespace character, with no boot marker `*`, the row parse of
`list_partitions` succeeds and yields a Partition record with the stripped
type, the two parsed integers and bootable = false.  (The trailing
whitespace is required: without it such a row is a parse error, as the
counterexample shows.) -/
theorem claim_c4_amended_trailing_ws (ss : Nat) (ty a : List Char) (w : Char)
    (d1 b d2 c : List Char)
    (hty : ty ≠ []) (htyn : ∀ x ∈ ty, x ≠ '\n')
    (haw : ∀ x ∈ a, pyIsSpace x = true) (han : ∀ x ∈ a, x ≠ '\n')
    (hw : pyIsSpace w = true)
    (hd1 : d1 ≠ []) (hd1d : ∀ x ∈ d1, x.isDigit = true)
    (hb : b ≠ []) (hbw : ∀ x ∈ b, pyIsSpace x = true)
    (hd2 : d2 ≠ []) (hd2d : ∀ x ∈ d2, x.isDigit = true)
    (hc : c ≠ []) (hcw : ∀ x ∈ c, pyIsSpace x = true) :
    parse_data_row ss ((ty ++ a) ++ (w :: (d1 ++ (b ++ (d2 ++ c))))) =
      .ok { type := pyStrip (String.mk ty), sector_size := ss,
            start_sector := digitsToNat d1, size_in_sectors := digitsToNat d2,
            bootable := false } := by
  have htype : pyStrip (String.mk (ty ++ a)) = pyStrip (String.mk ty) := by
    show String.mk (pyStripChars (String.mk (ty ++ a)).toList) =
      String.mk (pyStripChars (String.mk ty).toList)
    rw [toList_mk, toList_mk, pyStripChars_append_ws ty a haw]
  simp only [parse_data_row,
    matchDataRow_no_marker ty a w d1 b d2 c hty htyn haw han hw hd1 hd1d hb
      hbw hd2 hd2d hc hcw, htype]
  rfl

/-- Witness for the amended claim C4 at the concrete row
`Linux 2048 204800 ` (trailing space, no boot marker). -/
theorem claim_c4_witness :
    parse_data_row 512
      ((['L', 'i', 'n', 'u', 'x'] ++ []) ++
        (' ' :: (['2', '0', '4', '8'] ++ ([' '] ++ (['2', '0', '4', '8', '0', '0'] ++ [' ']))))) =
      .ok { type := pyStrip (String.mk ['L', 'i', 'n', 'u', 'x']), sector_size := 512,
            start_sector := digitsToNat ['2', '0', '4', '8'],
            size_in_sectors := digitsToNat ['2', '0', '4', '8', '0', '0'],
            bootable := false } :=
  claim_c4_amended_trailing_ws 512 ['L', 'i', 'n', 'u', 'x'] [] ' '
    ['2', '0', '4', '8'] [' '] ['2', '0', '4', '8', '0', '0'] [' ']
    (by decide) (by decide) (by decide) (by decide) (by decide)
    (by decide) (by decide) (by decide) (by decide) (by decide)
    (by decide) (by decide) (by decide)

end PreseedInstall
